import Mathlib

/-!
Verification of the menu-item extractor of `doordash_scraper.py`.

The two pure functions of the repository are embedded shallowly over
`List Char`:

* `extract_menu_items_from_script` (lines 76-113 of the source): scans the
  HTML for `<script>` bodies, keeps the ones containing the `"MenuPageItem"`
  marker (plain or escaped), finds brace-delimited candidate substrings,
  unescapes `\"` to `"`, tries a strict JSON parse and falls back to
  field-level regex extraction, keeps records with a `name` key, and finally
  deduplicates by `item.get("id")` through a Python `set`.  The Python
  deduplication loop hashes `item.get("id")`; hashing a `list` or `dict`
  raises `TypeError` outside every `try`, so the embedded function returns
  `Except Unit _` with `.error ()` modelling that uncaught exception.

* `extract_item_data_manually` (lines 115-141): six independent
  `re.search` calls with key-value patterns, renaming `displayPrice`,
  `imageUrl` and `ratingDisplayString` to `price`, `image_url` and `rating`,
  and dropping a `rating` whose matched value is the literal text `null`.

Python `json.loads` is modelled by a fuel-based recursive-descent parser
(`loads`).  Numbers are kept as their lexemes (the claims under study never
inspect numeric values); `\uXXXX` escapes are decoded, surrogate pairs are
combined, and a lone surrogate (which the Lean `Char` type cannot represent) is
mapped to U+FFFD.  Python dict semantics for duplicate keys (last value
wins, first position kept) are modelled by `insertMember`.  Regexes are
modelled by direct scanners with the same leftmost, non-overlapping match
semantics as `re.findall` / `re.search`, including the non-greedy `.*?`
(first `}` stops the candidate match; without `re.DOTALL` the run may not
cross a newline) and the greedy-plus-required-delimiter equivalences.
-/

/-! ## Basic character-list utilities -/

/-- True when `p` is a prefix of `s` (written `startsWithL p s`). -/
def startsWithL : List Char → List Char → Bool
  | [], _ => true
  | _ :: _, [] => false
  | p :: ps, c :: cs => p == c && startsWithL ps cs

/-- The Python `n in s` substring test, written `containsL n s`. -/
def containsL (n : List Char) : List Char → Bool
  | [] => startsWithL n []
  | c :: cs => startsWithL n (c :: cs) || containsL n cs

/-- Strips the literal `p` from the front of `s`, returning the rest. -/
def stripPrefixL : List Char → List Char → Option (List Char)
  | [], s => some s
  | _ :: _, [] => none
  | p :: ps, c :: cs => if p == c then stripPrefixL ps cs else none

/-- Models the regex fragment `[^>]*>`: drop everything up to and including
the first `>`, failing when there is none. -/
def splitAtFirstGt : List Char → Option (List Char)
  | [] => none
  | c :: cs => if c == '>' then some cs else splitAtFirstGt cs

/-- Splits `s` at the first occurrence of the literal `m`, returning the
part before it and the part after it. -/
def splitAtMarker (m : List Char) : List Char → Option (List Char × List Char)
  | [] => if m.isEmpty then some ([], []) else none
  | c :: cs =>
    match stripPrefixL m (c :: cs) with
    | some rest => some ([], rest)
    | none =>
      match splitAtMarker m cs with
      | some (pre, post) => some (c :: pre, post)
      | none => none

/-- The call `item_json.replace(escaped quote, quote)`: left-to-right non-overlapping
replacement of the two-character sequence `\"` by `"`. -/
def replaceEsc : List Char → List Char
  | '\\' :: '"' :: rest => '"' :: replaceEsc rest
  | c :: rest => c :: replaceEsc rest
  | [] => []

/-! ## The JSON value model -/

mutual
/-- A Python value produced by `json.loads`.  Numbers are kept as their raw
lexemes: the extractor never inspects numeric values, only compares them for
equality inside the dedup set, and distinct lexemes are distinct values. -/
inductive Json where
  | null
  | bool (b : Bool)
  | num (raw : List Char)
  | str (s : List Char)
  | arr (elems : JsonList)
  | obj (members : JsonMembers)
deriving DecidableEq, Repr
/-- A list of JSON values (array elements). -/
inductive JsonList where
  | nil
  | cons (hd : Json) (tl : JsonList)
deriving DecidableEq, Repr
/-- An insertion-ordered Python dict with string keys and JSON values. -/
inductive JsonMembers where
  | nil
  | cons (key : List Char) (val : Json) (tl : JsonMembers)
deriving DecidableEq, Repr
end

/-- Python dict truthiness: a dict is falsy exactly when it is empty. -/
def JsonMembers.isEmptyM : JsonMembers → Bool
  | .nil => true
  | .cons _ _ _ => false

/-- Key lookup in a dict (keys are unique by construction, so first match). -/
def JsonMembers.lookupM : JsonMembers → List Char → Option Json
  | .nil, _ => none
  | .cons k v t, key => if k == key then some v else t.lookupM key

/-- Models the Python membership test `key in d` on a dict. -/
def JsonMembers.hasKey (m : JsonMembers) (k : List Char) : Bool :=
  (m.lookupM k).isSome

/-- Python dict insertion `d[k] = v`: replace in place when the key exists,
append otherwise.  This is how `json.loads` resolves duplicate object keys
(last value wins, first position kept). -/
def insertMember : JsonMembers → List Char → Json → JsonMembers
  | .nil, k, v => .cons k v .nil
  | .cons k0 v0 t, k, v =>
    if k0 == k then .cons k0 v t else .cons k0 v0 (insertMember t k v)

/-- Appends one element at the end of a `JsonList`. -/
def JsonList.concatOne : JsonList → Json → JsonList
  | .nil, v => .cons v .nil
  | .cons h t, v => .cons h (t.concatOne v)

/-! ## The model of `json.loads` -/

/-- JSON inter-token whitespace: space, tab, newline, carriage return (the set used by the `json` module). -/
def isJsonWs (c : Char) : Bool :=
  c == ' ' || c == '\t' || c == '\n' || c == '\r'

/-- Skips JSON whitespace. -/
def skipWs : List Char → List Char
  | [] => []
  | c :: cs => if isJsonWs c then skipWs cs else c :: cs

/-- Value of one hex digit, by code-point arithmetic: digits map to 0-9,
lowercase a-f to 10-15, uppercase A-F to 10-15. -/
def hexVal (c : Char) : Option Nat :=
  let n := c.toNat
  if 48 ≤ n ∧ n ≤ 57 then some (n - 48)
  else if 97 ≤ n ∧ n ≤ 102 then some (n - 87)
  else if 65 ≤ n ∧ n ≤ 70 then some (n - 55)
  else none

/-- Reads the four hex digits of a `\uXXXX` escape. -/
def parseEscU (s : List Char) : Option (Nat × List Char) :=
  match s with
  | h1 :: h2 :: h3 :: h4 :: rest =>
    match hexVal h1, hexVal h2, hexVal h3, hexVal h4 with
    | some a, some b, some c, some d =>
      some (((a * 16 + b) * 16 + c) * 16 + d, rest)
    | _, _, _, _ => none
  | _ => none

/-- Turns a code point into a `Char`; a lone surrogate (representable in a
Python `str` but not in a Lean `Char`) becomes U+FFFD. -/
def codePointChar (n : Nat) : Char :=
  if n < 0xd800 then Char.ofNat n
  else if 0xdfff < n && n < 0x110000 then Char.ofNat n
  else Char.ofNat 0xFFFD

/-- One-character escapes of JSON strings. -/
def escChar (e : Char) : Option Char :=
  if e == '"' then some '"'
  else if e == '\\' then some '\\'
  else if e == '/' then some '/'
  else if e == 'b' then some (Char.ofNat 8)
  else if e == 'f' then some (Char.ofNat 12)
  else if e == 'n' then some '\n'
  else if e == 'r' then some '\r'
  else if e == 't' then some '\t'
  else none

/-- Scans a JSON string body (after the opening `"`), returning the decoded
content and the input after the closing `"`.  Strict mode: a raw control
character below U+0020 and an unknown escape are both errors.  Surrogate
pairs written as two `\u` escapes are combined as in the CPython `json` module. -/
def parseStringF : Nat → List Char → Option (List Char × List Char)
  | 0, _ => none
  | _ + 1, [] => none
  | fuel + 1, c :: cs =>
    if c == '"' then some ([], cs)
    else if c == '\\' then
      match cs with
      | [] => none
      | e :: cs2 =>
        if e == 'u' then
          match parseEscU cs2 with
          | none => none
          | some (n, rest) =>
            if 0xd800 ≤ n && n ≤ 0xdbff then
              match rest with
              | '\\' :: 'u' :: rest2 =>
                match parseEscU rest2 with
                | some (m, rest3) =>
                  if 0xdc00 ≤ m && m ≤ 0xdfff then
                    match parseStringF fuel rest3 with
                    | some (out, fin) =>
                      some (codePointChar (0x10000 + (n - 0xd800) * 0x400 + (m - 0xdc00)) :: out, fin)
                    | none => none
                  else
                    match parseStringF fuel rest with
                    | some (out, fin) => some (codePointChar n :: out, fin)
                    | none => none
                | none =>
                  match parseStringF fuel rest with
                  | some (out, fin) => some (codePointChar n :: out, fin)
                  | none => none
              | _ =>
                match parseStringF fuel rest with
                | some (out, fin) => some (codePointChar n :: out, fin)
                | none => none
            else
              match parseStringF fuel rest with
              | some (out, fin) => some (codePointChar n :: out, fin)
              | none => none
        else
          match escChar e with
          | some ec =>
            match parseStringF fuel cs2 with
            | some (out, fin) => some (ec :: out, fin)
            | none => none
          | none => none
    else if c.toNat < 0x20 then none
    else
      match parseStringF fuel cs with
      | some (out, fin) => some (c :: out, fin)
      | none => none

/-- String scanner with enough fuel for its input. -/
def parseStr (s : List Char) : Option (List Char × List Char) :=
  parseStringF (s.length + 1) s

/-- Maximal run of decimal digits. -/
def takeDigits : List Char → (List Char × List Char)
  | [] => ([], [])
  | c :: cs =>
    if c.isDigit then
      let (d, r) := takeDigits cs
      (c :: d, r)
    else ([], c :: cs)

/-- The integer part `(0|[1-9]\d*)` of the JSON number regex. -/
def parseIntPart : List Char → Option (List Char × List Char)
  | [] => none
  | c :: cs =>
    if c == '0' then some (['0'], cs)
    else if c.isDigit then
      let (d, r) := takeDigits cs
      some (c :: d, r)
    else none

/-- The optional fraction part `(\.\d+)?`. -/
def parseFracPart (s : List Char) : List Char × List Char :=
  match s with
  | '.' :: cs =>
    match takeDigits cs with
    | ([], _) => ([], s)
    | (d, r) => ('.' :: d, r)
  | _ => ([], s)

/-- The optional exponent part `([eE][+-]?\d+)?`. -/
def parseExpPart (s : List Char) : List Char × List Char :=
  match s with
  | e :: cs =>
    if e == 'e' || e == 'E' then
      match cs with
      | sg :: cs2 =>
        if sg == '+' || sg == '-' then
          match takeDigits cs2 with
          | ([], _) => ([], s)
          | (d, r) => (e :: sg :: d, r)
        else
          match takeDigits cs with
          | ([], _) => ([], s)
          | (d, r) => (e :: d, r)
      | [] => ([], s)
    else ([], s)
  | [] => ([], [])

/-- The JSON number token `-?(0|[1-9]\d*)(\.\d+)?([eE][+-]?\d+)?`, returned
as its lexeme. -/
def parseNumber (s : List Char) : Option (List Char × List Char) :=
  match s with
  | '-' :: cs =>
    match parseIntPart cs with
    | none => none
    | some (ip, r1) =>
      let (fp, r2) := parseFracPart r1
      let (ep, r3) := parseExpPart r2
      some ('-' :: (ip ++ fp ++ ep), r3)
  | _ =>
    match parseIntPart s with
    | none => none
    | some (ip, r1) =>
      let (fp, r2) := parseFracPart r1
      let (ep, r3) := parseExpPart r2
      some (ip ++ fp ++ ep, r3)

def trueTok : List Char := "true".toList
def falseTok : List Char := "false".toList
def nullTok : List Char := "null".toList
def nanTok : List Char := "NaN".toList
def infTok : List Char := "Infinity".toList
def negInfTok : List Char := "-Infinity".toList

mutual
/-- One JSON value starting exactly at the head of the input (whitespace
already skipped), as in the CPython `scan_once` scanner.  The constants `NaN`,
`Infinity` and `-Infinity`, accepted by `json.loads` by default, are kept as
number lexemes.  Fuel decreases on every mutual call; callers supply
`2 * length + 2`, which is always sufficient. -/
def parseValue : Nat → List Char → Option (Json × List Char)
  | 0, _ => none
  | fuel + 1, s =>
    match s with
    | [] => none
    | c :: cs =>
      if c == '"' then
        match parseStr cs with
        | some (content, rest) => some (Json.str content, rest)
        | none => none
      else if c == '{' then
        match skipWs cs with
        | '}' :: rest => some (Json.obj .nil, rest)
        | s1 =>
          match parseMembers fuel s1 .nil with
          | some (m, rest) => some (Json.obj m, rest)
          | none => none
      else if c == '[' then
        match skipWs cs with
        | ']' :: rest => some (Json.arr .nil, rest)
        | s1 =>
          match parseArrElems fuel s1 .nil with
          | some (elems, rest) => some (Json.arr elems, rest)
          | none => none
      else
        match stripPrefixL trueTok s with
        | some rest => some (Json.bool true, rest)
        | none =>
        match stripPrefixL falseTok s with
        | some rest => some (Json.bool false, rest)
        | none =>
        match stripPrefixL nullTok s with
        | some rest => some (Json.null, rest)
        | none =>
        match stripPrefixL nanTok s with
        | some rest => some (Json.num nanTok, rest)
        | none =>
        match stripPrefixL infTok s with
        | some rest => some (Json.num infTok, rest)
        | none =>
        match stripPrefixL negInfTok s with
        | some rest => some (Json.num negInfTok, rest)
        | none =>
        match parseNumber s with
        | some (lexeme, rest) => some (Json.num lexeme, rest)
        | none => none

/-- Object members from the first key on (the opening brace consumed,
whitespace skipped, input known not to start with a closing brace). -/
def parseMembers : Nat → List Char → JsonMembers → Option (JsonMembers × List Char)
  | 0, _, _ => none
  | fuel + 1, s, acc =>
    match s with
    | '"' :: s1 =>
      match parseStr s1 with
      | none => none
      | some (key, s2) =>
        match skipWs s2 with
        | ':' :: s3 =>
          match parseValue fuel (skipWs s3) with
          | none => none
          | some (v, s4) =>
            match skipWs s4 with
            | ',' :: s5 => parseMembers fuel (skipWs s5) (insertMember acc key v)
            | '}' :: s5 => some (insertMember acc key v, s5)
            | _ => none
        | _ => none
    | _ => none

/-- Array elements from the first element on (the opening bracket consumed,
whitespace skipped, input known not to start with a closing bracket). -/
def parseArrElems : Nat → List Char → JsonList → Option (JsonList × List Char)
  | 0, _, _ => none
  | fuel + 1, s, acc =>
    match parseValue fuel s with
    | none => none
    | some (v, s1) =>
      match skipWs s1 with
      | ',' :: s2 => parseArrElems fuel (skipWs s2) (acc.concatOne v)
      | ']' :: s2 => some (acc.concatOne v, s2)
      | _ => none
end

/-- Model of `json.loads`: skip leading whitespace, parse one value, and
require that only whitespace remains.  `none` models `json.JSONDecodeError`. -/
def loads (s : List Char) : Option Json :=
  match parseValue (2 * s.length + 2) (skipWs s) with
  | some (v, rest) => if (skipWs rest).isEmpty then some v else none
  | none => none

/-! ## The regex models of the extractor -/

def scriptOpenTok : List Char := "<script".toList
def scriptCloseTok : List Char := "</script>".toList
def markerTok : List Char := "\"MenuPageItem\"".toList
def escMarkerTok : List Char := "\\\"MenuPageItem\\\"".toList
def tnTok : List Char := "\"__typename".toList
def qcTok : List Char := "\":".toList
def mpiTok : List Char := "\"MenuPageItem".toList
def quoteTok : List Char := "\"".toList

/-- One attempted match of `<script[^>]*>(.*?)</script>` (with `re.DOTALL`)
anchored at the head of `s`: the literal `<script`, everything up to the
first `>`, then the captured body up to the first `</script>`.  Returns the
captured body and the input after the whole match. -/
def matchScriptAt (s : List Char) : Option (List Char × List Char) :=
  match stripPrefixL scriptOpenTok s with
  | none => none
  | some afterTag =>
    match splitAtFirstGt afterTag with
    | none => none
    | some afterGt =>
      match splitAtMarker scriptCloseTok afterGt with
      | some (body, rest) => some (body, rest)
      | none => none

/-- Fuel-driven scan for all non-overlapping leftmost matches, as
`re.findall` does: try a match at every position, and continue after the end
of each match. -/
def findScriptsF : Nat → List Char → List (List Char)
  | 0, _ => []
  | _ + 1, [] => []
  | fuel + 1, c :: cs =>
    match matchScriptAt (c :: cs) with
    | some (body, rest) => body :: findScriptsF fuel rest
    | none => findScriptsF fuel cs

/-- Models `re.findall` of the script pattern over the whole input with `re.DOTALL`. -/
def findScripts (s : List Char) : List (List Char) :=
  findScriptsF s.length s

/-- The optional backslash `\\?` in front of a literal that starts with a
quote: consuming the backslash when present is equivalent to the
backtracking behaviour, because the following literal never starts with a
backslash. -/
def stripOptBS : List Char → (List Char × List Char)
  | '\\' :: cs => (['\\'], cs)
  | s => ([], s)

/-- The trailing `.*?\}` of the candidate pattern without `re.DOTALL`: the
shortest run of non-newline characters followed by `}`.  Fails when a
newline appears before the first `}` or when there is no `}`. -/
def scanToRbrace : List Char → Option (List Char × List Char)
  | [] => none
  | c :: cs =>
    if c == '}' then some ([], cs)
    else if c == '\n' then none
    else
      match scanToRbrace cs with
      | some (mid, rest) => some (c :: mid, rest)
      | none => none

/-- One attempted match of
`\{\\?"__typename\\?":\\?"MenuPageItem\\?".*?\}` anchored at the head of
`s`, returning the full matched text (the pattern has no groups, so
`re.findall` yields whole matches) and the input after it. -/
def matchCandidateAt (s : List Char) : Option (List Char × List Char) :=
  match s with
  | '{' :: s1 =>
    let (b1, r1) := stripOptBS s1
    match stripPrefixL tnTok r1 with
    | none => none
    | some s2 =>
      let (b2, r2) := stripOptBS s2
      match stripPrefixL qcTok r2 with
      | none => none
      | some s3 =>
        let (b3, r3) := stripOptBS s3
        match stripPrefixL mpiTok r3 with
        | none => none
        | some s4 =>
          let (b4, r4) := stripOptBS s4
          match stripPrefixL quoteTok r4 with
          | none => none
          | some s5 =>
            match scanToRbrace s5 with
            | none => none
            | some (mid, rest) =>
              some ('{' :: (b1 ++ tnTok ++ b2 ++ qcTok ++ b3 ++ mpiTok ++ b4 ++ quoteTok ++ mid ++ ['}']), rest)
  | _ => none

/-- Fuel-driven `re.findall` scan for candidate objects. -/
def findCandidatesF : Nat → List Char → List (List Char)
  | 0, _ => []
  | _ + 1, [] => []
  | fuel + 1, c :: cs =>
    match matchCandidateAt (c :: cs) with
    | some (m, rest) => m :: findCandidatesF fuel rest
    | none => findCandidatesF fuel cs

/-- Models `re.findall(menu_items_pattern, script)`. -/
def findCandidates (s : List Char) : List (List Char) :=
  findCandidatesF s.length s

/-! ## The fallback field extractor -/

/-- The Python `\s` class on the characters these patterns meet; the full class also
holds rarer Unicode whitespace, irrelevant to the claims under study. -/
def isPyWs (c : Char) : Bool :=
  c == ' ' || c == '\t' || c == '\n' || c == '\r' ||
  c == Char.ofNat 11 || c == Char.ofNat 12

/-- Skips `\s*`. -/
def skipPyWs : List Char → List Char
  | [] => []
  | c :: cs => if isPyWs c then skipPyWs cs else c :: cs

/-- The value part `([^"]*)"`: everything up to the first `"`, failing when
there is none (greedy `+`/`*` followed by a required `"` can only match
this way). -/
def takeToQuote : List Char → Option (List Char × List Char)
  | [] => none
  | c :: cs =>
    if c == '"' then some ([], cs)
    else
      match takeToQuote cs with
      | some (v, r) => some (c :: v, r)
      | none => none

/-- One attempted match of `"key"\s*:\s*"([^"]+)"` (`allowEmpty = false`) or
`"key"\s*:\s*"([^"]*)"` (`allowEmpty = true`) anchored at the head of `s`,
returning the captured group. -/
def matchKVAt (key : List Char) (allowEmpty : Bool) (s : List Char) : Option (List Char) :=
  match stripPrefixL ('"' :: (key ++ ['"'])) s with
  | none => none
  | some s1 =>
    match skipPyWs s1 with
    | ':' :: s2 =>
      match skipPyWs s2 with
      | '"' :: s3 =>
        match takeToQuote s3 with
        | some (v, _) => if allowEmpty || !v.isEmpty then some v else none
        | none => none
      | _ => none
    | _ => none

/-- Models `re.search`: the captured group of the leftmost position where
the pattern matches. -/
def searchKV (key : List Char) (allowEmpty : Bool) : List Char → Option (List Char)
  | [] => none
  | c :: cs =>
    match matchKVAt key allowEmpty (c :: cs) with
    | some v => some v
    | none => searchKV key allowEmpty cs

def idKey : List Char := "id".toList
def nameKey : List Char := "name".toList
def descKey : List Char := "description".toList
def priceKey : List Char := "price".toList
def imageKey : List Char := "image_url".toList
def ratingKey : List Char := "rating".toList
def dpTok : List Char := "displayPrice".toList
def iuTok : List Char := "imageUrl".toList
def rdsTok : List Char := "ratingDisplayString".toList
def nullWord : List Char := "null".toList

/-- Adds the member when the search produced a value. -/
def consOptMember (k : List Char) (v : Option (List Char)) (rest : JsonMembers) : JsonMembers :=
  match v with
  | some s => .cons k (Json.str s) rest
  | none => rest

/-- Model of `extract_item_data_manually` (source lines 115-141): six
independent `re.search` calls; `id`, `name` and `imageUrl` use `([^"]+)`
(non-empty values), the other three use `([^"]*)`; `displayPrice`,
`imageUrl` and `ratingDisplayString` are renamed to `price`, `image_url`
and `rating`; a `ratingDisplayString` whose matched value is the literal
text `null` is omitted. -/
def extract_item_data_manually (s : List Char) : JsonMembers :=
  let idm := searchKV idKey false s
  let namem := searchKV nameKey false s
  let descm := searchKV descKey true s
  let pricem := searchKV dpTok true s
  let imagem := searchKV iuTok false s
  let ratingm := searchKV rdsTok true s
  let ratingm2 :=
    match ratingm with
    | some v => if v == nullWord then none else some v
    | none => none
  consOptMember idKey idm
    (consOptMember nameKey namem
      (consOptMember descKey descm
        (consOptMember priceKey pricem
          (consOptMember imageKey imagem
            (consOptMember ratingKey ratingm2 JsonMembers.nil)))))

/-! ## The extractor pipeline -/

/-- Model of the body of the inner `for item_json in items_json` loop
(source lines 91-103): unescape, strict parse, fallback on parse failure,
keep the record when it is truthy and has a `name` key.  `none` covers both
the filter and the outer `except` (nothing inside can raise in the model;
the strict parse of a candidate, which always begins with `{`, can only
produce an object, so the non-object branch is unreachable —
`loads_lbrace_obj` below). -/
def processCandidate (c : List Char) : Option JsonMembers :=
  let cleaned := replaceEsc c
  match loads cleaned with
  | some (Json.obj m) => if !m.isEmptyM && m.hasKey nameKey then some m else none
  | some _ => none
  | none =>
    let m := extract_item_data_manually cleaned
    if !m.isEmptyM && m.hasKey nameKey then some m else none

/-- One iteration of the `for script in scripts` loop (source lines 87-103):
a script contributes records only when it contains the marker in plain or
escaped form. -/
def processScript (script : List Char) : List JsonMembers :=
  if containsL markerTok script || containsL escMarkerTok script then
    (findCandidates script).filterMap processCandidate
  else []

/-- The `menu_items` accumulator right before deduplication (discovery
order). -/
def accumulateItems (html : List Char) : List JsonMembers :=
  (findScripts html).foldl (fun acc sc => acc ++ processScript sc) []

/-- Model of `item.get("id")`: Python returns `None` both for a missing key and for
an explicit `null` value — `json.loads` maps JSON `null` to that same
`None`. -/
def getId (m : JsonMembers) : Json :=
  (m.lookupM idKey).getD Json.null

/-- Whether a value can be put in a Python `set`: `json.loads` output is
hashable except for `list` and `dict`. -/
def hashableJ : Json → Bool
  | .arr _ => false
  | .obj _ => false
  | _ => true

/-- The deduplication loop (source lines 105-113).  `item.get("id") not in
seen_ids` hashes the id; on a `list` or `dict` id this raises `TypeError`
outside every `try`, modelled by `.error ()`. -/
def dedupeGo : List JsonMembers → List Json → Except Unit (List JsonMembers)
  | [], _ => .ok []
  | item :: rest, seen =>
    let v := getId item
    if hashableJ v then
      if v ∈ seen then dedupeGo rest seen
      else
        match dedupeGo rest (v :: seen) with
        | .ok out => .ok (item :: out)
        | .error e => .error e
    else .error ()

/-- Deduplication with an initially empty `seen_ids`. -/
def dedupe (items : List JsonMembers) : Except Unit (List JsonMembers) :=
  dedupeGo items []

/-- Model of `extract_menu_items_from_script` (source lines 76-113). -/
def extract_menu_items_from_script (html : List Char) : Except Unit (List JsonMembers) :=
  dedupe (accumulateItems html)

set_option maxRecDepth 200000

/-- Decidable equality of extraction results, used to evaluate the model on
concrete inputs inside proofs. -/
instance : DecidableEq (Except Unit (List JsonMembers)) := fun a b =>
  match a, b with
  | .ok x, .ok y => if h : x = y then .isTrue (by rw [h]) else .isFalse (by simp [h])
  | .error (), .error () => .isTrue rfl
  | .ok _, .error _ => .isFalse (by simp)
  | .error _, .ok _ => .isFalse (by simp)

/-! ## Concrete inputs and their expected records -/

/-- The HTML of §8 of the spec: one well-formed `MenuPageItem` object,
escaped for embedding (`\"` for every quote), inside one script tag. -/
def exC1 : List Char :=
  "<script>".toList ++
  ['{'] ++ "\\\"__typename\\\":\\\"MenuPageItem\\\",\\\"id\\\":\\\"1\\\",\\\"name\\\":\\\"Egg Roll\\\",\\\"description\\\":\\\"Crispy\\\",\\\"displayPrice\\\":\\\"$2.50\\\"".toList ++ ['}'] ++
  "</script>".toList

/-- The record the code extracts from `exC1`: the parsed mapping verbatim,
with the original `displayPrice` key. -/
def recC1 : JsonMembers :=
  .cons "__typename".toList (Json.str "MenuPageItem".toList)
    (.cons idKey (Json.str "1".toList)
      (.cons nameKey (Json.str "Egg Roll".toList)
        (.cons descKey (Json.str "Crispy".toList)
          (.cons dpTok (Json.str "$2.50".toList) JsonMembers.nil))))

/-- Two well-formed candidates, both with a `name` and neither with an
`id`. -/
def exC2 : List Char :=
  "<script>".toList ++
  ['{'] ++ "\"__typename\":\"MenuPageItem\",\"name\":\"A\"".toList ++ ['}'] ++
  ['{'] ++ "\"__typename\":\"MenuPageItem\",\"name\":\"B\"".toList ++ ['}'] ++
  "</script>".toList

def recC2A : JsonMembers :=
  .cons "__typename".toList (Json.str "MenuPageItem".toList)
    (.cons nameKey (Json.str "A".toList) JsonMembers.nil)

def recC2B : JsonMembers :=
  .cons "__typename".toList (Json.str "MenuPageItem".toList)
    (.cons nameKey (Json.str "B".toList) JsonMembers.nil)

/-- One well-formed candidate whose `name` is the empty string. -/
def exC3 : List Char :=
  "<script>".toList ++
  ['{'] ++ "\"__typename\":\"MenuPageItem\",\"name\":\"\"".toList ++ ['}'] ++
  "</script>".toList

def recC3 : JsonMembers :=
  .cons "__typename".toList (Json.str "MenuPageItem".toList)
    (.cons nameKey (Json.str []) JsonMembers.nil)

/-- Two candidates with the same `id` value `"7"` and different names. -/
def exC4 : List Char :=
  "<script>".toList ++
  ['{'] ++ "\"__typename\":\"MenuPageItem\",\"id\":\"7\",\"name\":\"A\"".toList ++ ['}'] ++
  ['{'] ++ "\"__typename\":\"MenuPageItem\",\"id\":\"7\",\"name\":\"B\"".toList ++ ['}'] ++
  "</script>".toList

def recC4A : JsonMembers :=
  .cons "__typename".toList (Json.str "MenuPageItem".toList)
    (.cons idKey (Json.str "7".toList)
      (.cons nameKey (Json.str "A".toList) JsonMembers.nil))

/-- A well-formed candidate whose `id` is a JSON array: `item.get("id")` is
then an unhashable Python `list` and the dedup loop raises `TypeError`. -/
def exC5 : List Char :=
  "<script>".toList ++
  ['{'] ++ "\"__typename\":\"MenuPageItem\",\"name\":\"A\",\"id\":[]".toList ++ ['}'] ++
  "</script>".toList

/-- HTML without any `MenuPageItem` marker. -/
def exC6 : List Char := "<p>hello</p><script>var x = 1;</script>".toList

/-- A candidate matching the brace pattern, failing strict JSON parsing
(trailing comma), containing `"name":"Fried Rice"` — but with an earlier
`"name":"X"` occurrence that `re.search` finds first. -/
def cc7 : List Char :=
  ['{'] ++ "\"__typename\":\"MenuPageItem\",\"name\":\"X\",\"name\":\"Fried Rice\",".toList ++ ['}']

/-- The literal text `"name":"Fried Rice"`. -/
def nfrTok : List Char := "\"name\":\"Fried Rice\"".toList

def recC7X : JsonMembers := .cons nameKey (Json.str "X".toList) JsonMembers.nil

/-- A malformed candidate (trailing comma) whose only `"name"` occurrence is
`"Fried Rice"`. -/
def cc7w : List Char :=
  ['{'] ++ "\"__typename\":\"MenuPageItem\",\"name\":\"Fried Rice\",".toList ++ ['}']

def recC7W : JsonMembers := .cons nameKey (Json.str "Fried Rice".toList) JsonMembers.nil

/-- A strict-JSON candidate whose `ratingDisplayString` is the literal text
`null` and which also carries its own `rating` field. -/
def cc8 : List Char :=
  ['{'] ++ "\"__typename\":\"MenuPageItem\",\"name\":\"A\",\"rating\":\"5\",\"ratingDisplayString\":\"null\"".toList ++ ['}']

def exC8 : List Char := "<script>".toList ++ cc8 ++ "</script>".toList

def recC8 : JsonMembers :=
  .cons "__typename".toList (Json.str "MenuPageItem".toList)
    (.cons nameKey (Json.str "A".toList)
      (.cons ratingKey (Json.str "5".toList)
        (.cons rdsTok (Json.str nullWord) JsonMembers.nil)))

/-- Fallback input with an empty-string `id` value and a non-empty name. -/
def s9 : List Char := "\"id\":\"\",\"name\":\"A\"".toList

def recS9 : JsonMembers := .cons nameKey (Json.str "A".toList) JsonMembers.nil

/-- Fallback witness input for the rating-null rule. -/
def s8w : List Char := "\"ratingDisplayString\":\"null\",\"name\":\"A\"".toList

/-- A strict-JSON candidate carrying `displayPrice` and a key outside the
six recognized fields. -/
def cc10 : List Char :=
  ['{'] ++ "\"__typename\":\"MenuPageItem\",\"name\":\"A\",\"displayPrice\":\"$1\",\"extraKey\":\"kept\"".toList ++ ['}']

def rec10 : JsonMembers :=
  .cons "__typename".toList (Json.str "MenuPageItem".toList)
    (.cons nameKey (Json.str "A".toList)
      (.cons dpTok (Json.str "$1".toList)
        (.cons "extraKey".toList (Json.str "kept".toList) JsonMembers.nil)))

/-! ## Supporting lemmas: records -/

theorem isEmptyM_false_of_hasKey (m : JsonMembers) (k : List Char) (h : m.hasKey k = true) :
    m.isEmptyM = false := by
  cases m with
  | nil => simp [JsonMembers.hasKey, JsonMembers.lookupM] at h
  | cons k0 v t => rfl

theorem getId_eq_null_of_no_id (m : JsonMembers) (h : m.hasKey idKey = false) :
    getId m = Json.null := by
  unfold getId JsonMembers.hasKey at *
  cases hl : m.lookupM idKey with
  | none => rfl
  | some v => rw [hl] at h; simp at h

theorem getId_eq_of_lookup (m : JsonMembers) (v : Json) (h : m.lookupM idKey = some v) :
    getId m = v := by unfold getId; rw [h]; rfl

theorem lookupM_consOpt_self_some (k sv : List Char) (rest : JsonMembers) :
    (consOptMember k (some sv) rest).lookupM k = some (Json.str sv) := by
  simp [consOptMember, JsonMembers.lookupM]

theorem lookupM_consOpt_none (k k2 : List Char) (rest : JsonMembers) :
    (consOptMember k none rest).lookupM k2 = rest.lookupM k2 := rfl

theorem lookupM_consOpt_ne (k k2 : List Char) (v : Option (List Char)) (rest : JsonMembers)
    (h : (k == k2) = false) :
    (consOptMember k v rest).lookupM k2 = rest.lookupM k2 := by
  cases v with
  | none => rfl
  | some sv => simp [consOptMember, JsonMembers.lookupM, h]

/-! ## Supporting lemmas: the fallback extractor field by field -/

theorem manual_lookup_id (s : List Char) :
    (extract_item_data_manually s).lookupM idKey = (searchKV idKey false s).map Json.str := by
  simp only [extract_item_data_manually]
  cases h : searchKV idKey false s with
  | none =>
    rw [lookupM_consOpt_none,
        lookupM_consOpt_ne nameKey idKey _ _ (by decide),
        lookupM_consOpt_ne descKey idKey _ _ (by decide),
        lookupM_consOpt_ne priceKey idKey _ _ (by decide),
        lookupM_consOpt_ne imageKey idKey _ _ (by decide),
        lookupM_consOpt_ne ratingKey idKey _ _ (by decide)]
    rfl
  | some v => simp [lookupM_consOpt_self_some]

theorem manual_lookup_name (s : List Char) :
    (extract_item_data_manually s).lookupM nameKey = (searchKV nameKey false s).map Json.str := by
  simp only [extract_item_data_manually]
  rw [lookupM_consOpt_ne idKey nameKey _ _ (by decide)]
  cases h : searchKV nameKey false s with
  | none =>
    rw [lookupM_consOpt_none,
        lookupM_consOpt_ne descKey nameKey _ _ (by decide),
        lookupM_consOpt_ne priceKey nameKey _ _ (by decide),
        lookupM_consOpt_ne imageKey nameKey _ _ (by decide),
        lookupM_consOpt_ne ratingKey nameKey _ _ (by decide)]
    rfl
  | some v => simp [lookupM_consOpt_self_some]

theorem manual_lookup_desc (s : List Char) :
    (extract_item_data_manually s).lookupM descKey = (searchKV descKey true s).map Json.str := by
  simp only [extract_item_data_manually]
  rw [lookupM_consOpt_ne idKey descKey _ _ (by decide),
      lookupM_consOpt_ne nameKey descKey _ _ (by decide)]
  cases h : searchKV descKey true s with
  | none =>
    rw [lookupM_consOpt_none,
        lookupM_consOpt_ne priceKey descKey _ _ (by decide),
        lookupM_consOpt_ne imageKey descKey _ _ (by decide),
        lookupM_consOpt_ne ratingKey descKey _ _ (by decide)]
    rfl
  | some v => simp [lookupM_consOpt_self_some]

theorem manual_lookup_price (s : List Char) :
    (extract_item_data_manually s).lookupM priceKey = (searchKV dpTok true s).map Json.str := by
  simp only [extract_item_data_manually]
  rw [lookupM_consOpt_ne idKey priceKey _ _ (by decide),
      lookupM_consOpt_ne nameKey priceKey _ _ (by decide),
      lookupM_consOpt_ne descKey priceKey _ _ (by decide)]
  cases h : searchKV dpTok true s with
  | none =>
    rw [lookupM_consOpt_none,
        lookupM_consOpt_ne imageKey priceKey _ _ (by decide),
        lookupM_consOpt_ne ratingKey priceKey _ _ (by decide)]
    rfl
  | some v => simp [lookupM_consOpt_self_some]

theorem manual_lookup_image (s : List Char) :
    (extract_item_data_manually s).lookupM imageKey = (searchKV iuTok false s).map Json.str := by
  simp only [extract_item_data_manually]
  rw [lookupM_consOpt_ne idKey imageKey _ _ (by decide),
      lookupM_consOpt_ne nameKey imageKey _ _ (by decide),
      lookupM_consOpt_ne descKey imageKey _ _ (by decide),
      lookupM_consOpt_ne priceKey imageKey _ _ (by decide)]
  cases h : searchKV iuTok false s with
  | none =>
    rw [lookupM_consOpt_none,
        lookupM_consOpt_ne ratingKey imageKey _ _ (by decide)]
    rfl
  | some v => simp [lookupM_consOpt_self_some]

theorem manual_lookup_rating (s : List Char) :
    (extract_item_data_manually s).lookupM ratingKey =
      (searchKV rdsTok true s).bind
        (fun v => if v == nullWord then none else some (Json.str v)) := by
  simp only [extract_item_data_manually]
  rw [lookupM_consOpt_ne idKey ratingKey _ _ (by decide),
      lookupM_consOpt_ne nameKey ratingKey _ _ (by decide),
      lookupM_consOpt_ne descKey ratingKey _ _ (by decide),
      lookupM_consOpt_ne priceKey ratingKey _ _ (by decide),
      lookupM_consOpt_ne imageKey ratingKey _ _ (by decide)]
  cases h : searchKV rdsTok true s with
  | none => rfl
  | some v =>
    by_cases hv : (v == nullWord) = true
    · have hv2 : v = nullWord := by simpa using hv
      subst hv2
      simp [consOptMember, JsonMembers.lookupM]
    · rw [Bool.not_eq_true] at hv
      have hv2 : ¬ v = nullWord := by simpa using hv
      simp [hv, hv2, lookupM_consOpt_self_some]

/-! ## Supporting lemmas: candidate processing -/

theorem processCandidate_hasKey_name (c : List Char) (r : JsonMembers)
    (h : processCandidate c = some r) : r.hasKey nameKey = true := by
  simp only [processCandidate] at h
  split at h
  · split at h
    · rename_i m hl hcond
      injection h with h2
      subst h2
      exact (Bool.and_eq_true _ _).mp hcond |>.2
    · exact Option.noConfusion h
  · exact Option.noConfusion h
  · split at h
    · rename_i hl hcond
      injection h with h2
      subst h2
      exact (Bool.and_eq_true _ _).mp hcond |>.2
    · exact Option.noConfusion h

/-! ## Supporting lemmas: the deduplication loop -/

/-- Evaluation of `List.find?` over a cons whose head satisfies the predicate. -/
theorem find?_cons_pos {α : Type} (p : α → Bool) (a : α) (l : List α) (h : p a = true) :
    (a :: l).find? p = some a := by
  simp [List.find?_cons, h]

/-- Evaluation of `List.find?` over a cons whose head fails the predicate. -/
theorem find?_cons_neg {α : Type} (p : α → Bool) (a : α) (l : List α) (h : p a = false) :
    (a :: l).find? p = l.find? p := by
  simp [List.find?_cons, h]

theorem dedupeGo_spec : ∀ (items : List JsonMembers) (seen : List Json) (out : List JsonMembers),
    dedupeGo items seen = .ok out →
    (∀ r ∈ out, getId r ∉ seen) ∧
    List.Pairwise (fun a b => getId a ≠ getId b) out ∧
    (∀ r ∈ out, items.find? (fun x => decide (getId x = getId r)) = some r) ∧
    out.Sublist items
  | [], seen, out, h => by
    simp only [dedupeGo] at h
    injection h with h2
    subst h2
    exact ⟨by simp, by simp, by simp, List.nil_sublist _⟩
  | item :: rest, seen, out, h => by
    simp only [dedupeGo] at h
    split at h
    · split at h
      · rename_i hhash hmem
        obtain ⟨h1, h2, h3, h4⟩ := dedupeGo_spec rest seen out h
        refine ⟨h1, h2, ?_, h4.cons _⟩
        intro r hr
        have hne : decide (getId item = getId r) = false := by
          rw [decide_eq_false_iff_not]
          intro he
          exact h1 r hr (he ▸ hmem)
        rw [find?_cons_neg (fun x => decide (getId x = getId r)) item rest hne]
        exact h3 r hr
      · rename_i hhash hmem
        cases hres : dedupeGo rest (getId item :: seen) with
        | error e => rw [hres] at h; exact Except.noConfusion h
        | ok out1 =>
          rw [hres] at h
          injection h with h2
          subst h2
          obtain ⟨h1, h2, h3, h4⟩ := dedupeGo_spec rest (getId item :: seen) out1 hres
          have hnotin : ∀ r ∈ out1, getId r ≠ getId item := by
            intro r hr he
            exact h1 r hr (by rw [he]; exact List.mem_cons_self _ _)
          refine ⟨?_, ?_, ?_, h4.cons₂ _⟩
          · intro r hr
            rcases List.mem_cons.mp hr with rfl | hr1
            · exact hmem
            · exact fun hs => h1 r hr1 (List.mem_cons_of_mem _ hs)
          · rw [List.pairwise_cons]
            exact ⟨fun r hr he => hnotin r hr he.symm, h2⟩
          · intro r hr
            rcases List.mem_cons.mp hr with rfl | hr1
            · exact find?_cons_pos (fun x => decide (getId x = getId r)) r rest (by simp)
            · have hne : decide (getId item = getId r) = false := by
                rw [decide_eq_false_iff_not]
                intro he
                exact hnotin r hr1 he.symm
              rw [find?_cons_neg (fun x => decide (getId x = getId r)) item rest hne]
              exact h3 r hr1
    · exact Except.noConfusion h

theorem dedupeGo_total : ∀ (items : List JsonMembers) (seen : List Json),
    (∀ r ∈ items, hashableJ (getId r) = true) →
    ∃ out, dedupeGo items seen = .ok out
  | [], seen, _ => ⟨[], rfl⟩
  | item :: rest, seen, h => by
    have hhash : hashableJ (getId item) = true := h item (List.mem_cons_self _ _)
    have hrest : ∀ r ∈ rest, hashableJ (getId r) = true :=
      fun r hr => h r (List.mem_cons_of_mem _ hr)
    simp only [dedupeGo, hhash, if_true]
    by_cases hmem : getId item ∈ seen
    · obtain ⟨out, hout⟩ := dedupeGo_total rest seen hrest
      exact ⟨out, by simp [hmem, hout]⟩
    · obtain ⟨out, hout⟩ := dedupeGo_total rest (getId item :: seen) hrest
      exact ⟨item :: out, by simp [hmem, hout]⟩

theorem countP_no_id_le_one (l : List JsonMembers)
    (hp : List.Pairwise (fun a b => getId a ≠ getId b) l) :
    l.countP (fun r => !r.hasKey idKey) ≤ 1 := by
  induction l with
  | nil => simp
  | cons x xs ih =>
    rw [List.countP_cons]
    rcases List.pairwise_cons.mp hp with ⟨hx, hxs⟩
    by_cases hk : x.hasKey idKey = false
    · have hzero : xs.countP (fun r => !r.hasKey idKey) = 0 := by
        rw [List.countP_eq_zero]
        intro r hr hpr
        have hrk : r.hasKey idKey = false := by simpa using hpr
        exact hx r hr ((getId_eq_null_of_no_id x hk).trans
          (getId_eq_null_of_no_id r hrk).symm)
      simp [hzero, hk]
    · have hk2 : (!x.hasKey idKey) = false := by
        simp only [Bool.not_eq_false] at hk
        simp [hk]
      simp [hk2]
      exact ih hxs

/-! ## Supporting lemmas: accumulation -/

theorem foldl_append_mem {α β : Type} (f : α → List β) (xs : List α) (init : List β) (r : β) :
    r ∈ xs.foldl (fun acc x => acc ++ f x) init ↔ r ∈ init ∨ ∃ x ∈ xs, r ∈ f x := by
  induction xs generalizing init with
  | nil => simp
  | cons x xs ih =>
    rw [List.foldl_cons, ih]
    simp [List.mem_append, or_assoc]

theorem foldl_append_eq_init {α β : Type} (f : α → List β) (xs : List α) (init : List β)
    (h : ∀ x ∈ xs, f x = []) : xs.foldl (fun acc x => acc ++ f x) init = init := by
  induction xs generalizing init with
  | nil => rfl
  | cons x xs ih =>
    rw [List.foldl_cons, h x (List.mem_cons_self _ _), List.append_nil]
    exact ih init (fun y hy => h y (List.mem_cons_of_mem _ hy))

theorem mem_accumulateItems (html : List Char) (r : JsonMembers)
    (h : r ∈ accumulateItems html) : ∃ c, processCandidate c = some r := by
  unfold accumulateItems at h
  rw [foldl_append_mem] at h
  rcases h with h | ⟨sc, _, hmem⟩
  · simp at h
  · unfold processScript at hmem
    split at hmem
    · rcases List.mem_filterMap.mp hmem with ⟨c, _, hc⟩
      exact ⟨c, hc⟩
    · simp at hmem

theorem accumulateItems_hasKey_name (html : List Char) (r : JsonMembers)
    (h : r ∈ accumulateItems html) : r.hasKey nameKey = true := by
  obtain ⟨c, hc⟩ := mem_accumulateItems html r h
  exact processCandidate_hasKey_name c r hc

/-! ## Supporting lemmas: script bodies are substrings of the input -/

theorem stripPrefixL_eq : ∀ (p s r : List Char), stripPrefixL p s = some r → s = p ++ r
  | [], s, r, h => by
    simp only [stripPrefixL, Option.some.injEq] at h
    subst h
    rfl
  | p :: ps, [], r, h => by simp [stripPrefixL] at h
  | p :: ps, c :: cs, r, h => by
    simp only [stripPrefixL] at h
    split at h
    · rename_i hpc
      have : p = c := by simpa using hpc
      subst this
      rw [List.cons_append]
      exact congrArg _ (stripPrefixL_eq ps cs r h)
    · exact Option.noConfusion h

theorem splitAtFirstGt_eq : ∀ (s r : List Char), splitAtFirstGt s = some r →
    ∃ pre, s = pre ++ '>' :: r
  | [], r, h => by simp [splitAtFirstGt] at h
  | c :: cs, r, h => by
    simp only [splitAtFirstGt] at h
    split at h
    · rename_i hc
      have : c = '>' := by simpa using hc
      subst this
      simp only [Option.some.injEq] at h
      subst h
      exact ⟨[], rfl⟩
    · obtain ⟨pre, hp⟩ := splitAtFirstGt_eq cs r h
      exact ⟨c :: pre, by rw [hp]; rfl⟩

theorem splitAtMarker_eq : ∀ (m s pre post : List Char),
    splitAtMarker m s = some (pre, post) → s = pre ++ m ++ post
  | m, [], pre, post, h => by
    simp only [splitAtMarker] at h
    split at h
    · rename_i hm
      simp only [Option.some.injEq, Prod.mk.injEq] at h
      obtain ⟨h3, h4⟩ := h
      subst h3
      subst h4
      have hm2 : m = [] := by simpa [List.isEmpty_iff] using hm
      subst hm2
      rfl
    · exact Option.noConfusion h
  | m, c :: cs, pre, post, h => by
    simp only [splitAtMarker] at h
    split at h
    · rename_i rest hrest
      simp only [Option.some.injEq, Prod.mk.injEq] at h
      obtain ⟨h3, h4⟩ := h
      subst h3
      subst h4
      simpa using stripPrefixL_eq m (c :: cs) rest hrest
    · split at h
      · rename_i pre1 post1 hrec
        simp only [Option.some.injEq, Prod.mk.injEq] at h
        obtain ⟨h3, h4⟩ := h
        subst h3
        subst h4
        have hrec2 := splitAtMarker_eq m cs pre1 post1 hrec
        simp [hrec2]
      · exact Option.noConfusion h

theorem matchScriptAt_decomp (s body rest : List Char)
    (h : matchScriptAt s = some (body, rest)) :
    ∃ a b, s = a ++ body ++ b ∧ ∃ a2, s = a2 ++ rest := by
  unfold matchScriptAt at h
  split at h
  · exact Option.noConfusion h
  · rename_i afterTag h1
    split at h
    · exact Option.noConfusion h
    · rename_i afterGt h2
      split at h
      · rename_i body1 rest1 h3
        simp only [Option.some.injEq, Prod.mk.injEq] at h
        obtain ⟨h4, h5⟩ := h
        subst h4
        subst h5
        have e1 := stripPrefixL_eq _ _ _ h1
        obtain ⟨pre, e2⟩ := splitAtFirstGt_eq _ _ h2
        have e3 := splitAtMarker_eq _ _ _ _ h3
        refine ⟨scriptOpenTok ++ pre ++ ['>'], scriptCloseTok ++ rest1,
                ?_, scriptOpenTok ++ pre ++ ['>'] ++ body1 ++ scriptCloseTok, ?_⟩
        · rw [e1, e2, e3]
          simp
        · rw [e1, e2, e3]
          simp
      · exact Option.noConfusion h

theorem findScriptsF_decomp : ∀ (fuel : Nat) (s body : List Char),
    body ∈ findScriptsF fuel s → ∃ a b, s = a ++ body ++ b
  | 0, s, body, h => by simp [findScriptsF] at h
  | fuel + 1, [], body, h => by simp [findScriptsF] at h
  | fuel + 1, c :: cs, body, h => by
    simp only [findScriptsF] at h
    split at h
    · rename_i bd rest hm
      simp only [List.mem_cons] at h
      obtain ⟨a, b, hab, a2, ha2⟩ := matchScriptAt_decomp (c :: cs) bd rest hm
      rcases h with rfl | h1
      · exact ⟨a, b, hab⟩
      · obtain ⟨a3, b3, hab3⟩ := findScriptsF_decomp fuel rest body h1
        refine ⟨a2 ++ a3, b3, ?_⟩
        rw [ha2, hab3]
        simp
    · rename_i hm
      obtain ⟨a, b, hab⟩ := findScriptsF_decomp fuel cs body h
      exact ⟨c :: a, b, by rw [hab]; rfl⟩

/-! ## Supporting lemmas: substring containment is monotone -/

theorem containsL_nil_needle : ∀ s : List Char, containsL [] s = true
  | [] => rfl
  | _ :: cs => by simp [containsL, startsWithL]

theorem startsWithL_append : ∀ (n t b : List Char),
    startsWithL n t = true → startsWithL n (t ++ b) = true
  | [], _, _, _ => rfl
  | p :: ps, [], b, h => by simp [startsWithL] at h
  | p :: ps, c :: cs, b, h => by
    simp only [List.cons_append, startsWithL, Bool.and_eq_true] at h ⊢
    exact ⟨h.1, startsWithL_append ps cs b h.2⟩

theorem containsL_append_right : ∀ (n t b : List Char),
    containsL n t = true → containsL n (t ++ b) = true
  | n, [], b, h => by
    cases n with
    | nil => exact containsL_nil_needle b
    | cons x xs => simp [containsL, startsWithL] at h
  | n, c :: cs, b, h => by
    simp only [List.cons_append, containsL, Bool.or_eq_true] at h ⊢
    rcases h with h | h
    · exact Or.inl (startsWithL_append n (c :: cs) b h)
    · exact Or.inr (containsL_append_right n cs b h)

theorem containsL_append_left : ∀ (n a t : List Char),
    containsL n t = true → containsL n (a ++ t) = true
  | n, [], t, h => h
  | n, x :: a, t, h => by
    simp only [List.cons_append, containsL, Bool.or_eq_true]
    exact Or.inr (containsL_append_left n a t h)

theorem containsL_of_middle (n a t b : List Char) (h : containsL n t = true) :
    containsL n (a ++ t ++ b) = true := by
  rw [List.append_assoc]
  exact containsL_append_left n a (t ++ b) (containsL_append_right n t b h)

/-! ## Claim C1 -/

/-- Claim C1, as stated, is false: for the single well-formed
embedded object, the extractor returns exactly one record with the correct
`id`, `name` and `description`, but the price sits under the verbatim key
`displayPrice` — there is no `price` key in the record. -/
theorem C1_counterexample :
    extract_menu_items_from_script exC1 = .ok [recC1] ∧
    recC1.lookupM priceKey = none := by
  exact ⟨by decide, by decide⟩

/-- Claim C1 amended: the single extracted record carries `id="1"`,
`name="Egg Roll"`, `description="Crispy"` and the price `"$2.50"` under the
original key `displayPrice` (strict-parse path keeps keys verbatim). -/
theorem C1_amended_thm :
    extract_menu_items_from_script exC1 = .ok [recC1] ∧
    recC1.lookupM idKey = some (Json.str "1".toList) ∧
    recC1.lookupM nameKey = some (Json.str "Egg Roll".toList) ∧
    recC1.lookupM descKey = some (Json.str "Crispy".toList) ∧
    recC1.lookupM dpTok = some (Json.str "$2.50".toList) := by
  refine ⟨by decide, by decide, by decide, by decide, by decide⟩

/-! ## Claim C2 -/

/-- Claim C2, as stated, is false: two distinct records both lacking an
`id` key share the dedup key `None` (`item.get("id")`), so the second is
deduplicated away — here both id-less records are discovered but only the
first survives. -/
theorem C2_counterexample :
    extract_menu_items_from_script exC2 = .ok [recC2A] ∧
    accumulateItems exC2 = [recC2A, recC2B] ∧
    recC2A.hasKey idKey = false ∧
    recC2B.hasKey idKey = false ∧
    recC2A ≠ recC2B := by
  exact ⟨by decide, by decide, by decide, by decide, by decide⟩

/-- Claim C2 amended: records lacking an `id` key all share the dedup key
`None`, so far from being retained unconditionally, at most one record
lacking an `id` key (the first discovered) ever appears in the output. -/
theorem C2_amended_thm (html : List Char) (l : List JsonMembers)
    (h : extract_menu_items_from_script html = .ok l) :
    l.countP (fun r => !r.hasKey idKey) ≤ 1 := by
  unfold extract_menu_items_from_script dedupe at h
  obtain ⟨_, h2, _, _⟩ := dedupeGo_spec _ _ _ h
  exact countP_no_id_le_one l h2

/-- Witness for the amended C2 at the concrete input `exC2`. -/
theorem C2_amended_witness :
    List.countP (fun r => !r.hasKey idKey) [recC2A] ≤ 1 :=
  C2_amended_thm exC2 [recC2A] (by decide)

/-! ## Claim C3 -/

/-- Claim C3, as stated, is false: the strict-parse path only checks
`"name" in item_data` and never looks at the value, so a candidate with an
empty-string `name` is retained in the output. -/
theorem C3_counterexample :
    extract_menu_items_from_script exC3 = .ok [recC3] ∧
    recC3.lookupM nameKey = some (Json.str []) := by
  exact ⟨by decide, by decide⟩

/-- Claim C3 amended: every record in the output has a `name` key (a
candidate with no `name` key is excluded), but the value need not be a
non-empty string. -/
theorem C3_amended_thm (html : List Char) (l : List JsonMembers)
    (h : extract_menu_items_from_script html = .ok l) :
    ∀ r ∈ l, r.hasKey nameKey = true := by
  unfold extract_menu_items_from_script dedupe at h
  obtain ⟨_, _, _, h4⟩ := dedupeGo_spec _ _ _ h
  intro r hr
  exact accumulateItems_hasKey_name html r (h4.subset hr)

/-- Witness for the amended C3 at the concrete input `exC3`. -/
theorem C3_amended_witness : recC3.hasKey nameKey = true :=
  C3_amended_thm exC3 [recC3] (by decide) recC3 (by simp)

/-! ## Claim C4 -/

/-- Claim C4: in any successful extraction, the `id` values of records that
have an `id` key are pairwise distinct, each retained record is the first
record in discovery order with its `item.get("id")` dedup key, and the
output preserves discovery order (it is a sublist of the accumulator). -/
theorem C4_thm (html : List Char) (l : List JsonMembers)
    (h : extract_menu_items_from_script html = .ok l) :
    List.Pairwise (fun a b => ∀ va vb,
      a.lookupM idKey = some va → b.lookupM idKey = some vb → va ≠ vb) l ∧
    (∀ r ∈ l, (accumulateItems html).find? (fun x => decide (getId x = getId r)) = some r) ∧
    l.Sublist (accumulateItems html) := by
  unfold extract_menu_items_from_script dedupe at h
  obtain ⟨h1, h2, h3, h4⟩ := dedupeGo_spec _ _ _ h
  refine ⟨?_, h3, h4⟩
  refine h2.imp ?_
  intro a b hab va vb hva hvb he
  apply hab
  rw [getId_eq_of_lookup a va hva, getId_eq_of_lookup b vb hvb, he]

/-- Witness for C4 at the concrete input `exC4` (two candidates with the
same id `"7"`): the retained record is the first of the two accumulated
records. -/
theorem C4_witness :
    (accumulateItems exC4).find? (fun x => decide (getId x = getId recC4A)) = some recC4A :=
  (C4_thm exC4 [recC4A] (by decide)).2.1 recC4A (by simp)

/-! ## Claim C5 -/

/-- Claim C5, as stated, is false: a well-formed candidate whose `id` is a
JSON array makes `item.get("id") not in seen_ids` hash an unhashable value,
raising `TypeError` outside every `try` — the function does not return a
list for this input. -/
theorem C5_counterexample :
    extract_menu_items_from_script exC5 = .error () := by
  decide

/-- Claim C5 amended: the extraction returns a list whenever no accumulated
record carries an array- or object-valued `id` (in particular a strict-JSON
parse failure of one candidate never aborts the others — the candidate is
merely diverted to fallback extraction). -/
theorem C5_amended_thm (html : List Char)
    (h : ∀ r ∈ accumulateItems html, hashableJ (getId r) = true) :
    ∃ l, extract_menu_items_from_script html = .ok l := by
  unfold extract_menu_items_from_script dedupe
  exact dedupeGo_total (accumulateItems html) [] h

/-- Witness for the amended C5 at the concrete input `exC1`. -/
theorem C5_amended_witness :
    ∃ l, extract_menu_items_from_script exC1 = .ok l :=
  C5_amended_thm exC1 (by decide)

/-! ## Claim C6 -/

/-- Claim C6: an HTML input containing neither the quoted marker
`"MenuPageItem"` nor its escaped form `\"MenuPageItem\"` yields the empty
list — every script body is a substring of the input, so no script passes
the marker gate and no candidate is ever processed. -/
theorem C6_thm (html : List Char)
    (h1 : containsL markerTok html = false)
    (h2 : containsL escMarkerTok html = false) :
    extract_menu_items_from_script html = .ok [] := by
  have hacc : accumulateItems html = [] := by
    unfold accumulateItems
    apply foldl_append_eq_init
    intro sc hsc
    unfold processScript
    obtain ⟨a, b, hab⟩ := findScriptsF_decomp html.length html sc
      (by simpa [findScripts] using hsc)
    have hm1 : containsL markerTok sc = false := by
      cases hc : containsL markerTok sc with
      | false => rfl
      | true =>
        have hup := containsL_of_middle markerTok a sc b hc
        rw [← hab] at hup
        rw [hup] at h1
        exact Bool.noConfusion h1
    have hm2 : containsL escMarkerTok sc = false := by
      cases hc : containsL escMarkerTok sc with
      | false => rfl
      | true =>
        have hup := containsL_of_middle escMarkerTok a sc b hc
        rw [← hab] at hup
        rw [hup] at h2
        exact Bool.noConfusion h2
    simp [hm1, hm2]
  unfold extract_menu_items_from_script
  rw [hacc]
  rfl

/-- Witness for C6 at the concrete marker-free input `exC6`. -/
theorem C6_witness :
    containsL markerTok exC6 = false ∧
    containsL escMarkerTok exC6 = false ∧
    extract_menu_items_from_script exC6 = .ok [] :=
  ⟨by decide, by decide, C6_thm exC6 (by decide) (by decide)⟩

/-! ## Claim C7 -/

/-- Claim C7, as stated, is false: `cc7` matches the candidate pattern,
fails strict parsing and contains the text `"name":"Fried Rice"`, yet the
fallback keeps the value of the FIRST `"name"` occurrence, `"X"`, so the
produced record does not have `name="Fried Rice"`. -/
theorem C7_counterexample :
    matchCandidateAt cc7 = some (cc7, []) ∧
    loads (replaceEsc cc7) = none ∧
    containsL nfrTok (replaceEsc cc7) = true ∧
    processCandidate cc7 = some recC7X ∧
    recC7X.lookupM nameKey = some (Json.str "X".toList) ∧
    recC7X.lookupM nameKey ≠ some (Json.str "Fried Rice".toList) := by
  exact ⟨by decide, by decide, by decide, by decide, by decide, by decide⟩

/-- Claim C7 amended: a candidate whose unescaped text fails strict JSON
parsing and whose FIRST `"name":"…"` occurrence has value `Fried Rice`
still yields, via fallback extraction, a record with `name="Fried Rice"`
rather than being dropped. -/
theorem C7_amended_thm (c : List Char)
    (hl : loads (replaceEsc c) = none)
    (hn : searchKV nameKey false (replaceEsc c) = some "Fried Rice".toList) :
    ∃ r, processCandidate c = some r ∧
      r.lookupM nameKey = some (Json.str "Fried Rice".toList) := by
  have hk : (extract_item_data_manually (replaceEsc c)).lookupM nameKey
      = some (Json.str "Fried Rice".toList) := by
    rw [manual_lookup_name, hn]
    rfl
  have hkk : (extract_item_data_manually (replaceEsc c)).hasKey nameKey = true := by
    simp [JsonMembers.hasKey, hk]
  refine ⟨extract_item_data_manually (replaceEsc c), ?_, hk⟩
  simp only [processCandidate]
  rw [hl]
  simp [hkk, isEmptyM_false_of_hasKey _ _ hkk]

/-- Witness for the amended C7 at the concrete malformed candidate `cc7w`. -/
theorem C7_amended_witness :
    loads (replaceEsc cc7w) = none ∧
    ∃ r, processCandidate cc7w = some r ∧
      r.lookupM nameKey = some (Json.str "Fried Rice".toList) :=
  ⟨by decide, C7_amended_thm cc7w (by decide) (by decide)⟩

/-! ## Claim C8 -/

/-- Claim C8, as stated, is false: a strict-JSON candidate keeps its keys
verbatim, so a candidate whose `ratingDisplayString` is the literal text
`null` but which carries its own `rating` field produces a record with a
`rating` key. -/
theorem C8_counterexample :
    extract_menu_items_from_script exC8 = .ok [recC8] ∧
    recC8.lookupM rdsTok = some (Json.str nullWord) ∧
    recC8.lookupM ratingKey = some (Json.str "5".toList) := by
  exact ⟨by decide, by decide, by decide⟩

/-- Claim C8 amended: in fallback extraction a `ratingDisplayString` whose
first matched value is the literal text `null` yields no `rating` key (in
the strict-parse path keys are preserved verbatim, so no `rating` key is
ever derived from `ratingDisplayString` there either, but an explicit
`rating` field of the JSON survives). -/
theorem C8_amended_thm (s : List Char)
    (h : searchKV rdsTok true s = some nullWord) :
    (extract_item_data_manually s).lookupM ratingKey = none := by
  rw [manual_lookup_rating, h]
  simp

/-- Witness for the amended C8 at the concrete fallback input `s8w`. -/
theorem C8_amended_witness :
    searchKV rdsTok true s8w = some nullWord ∧
    (extract_item_data_manually s8w).lookupM ratingKey = none :=
  ⟨by decide, C8_amended_thm s8w (by decide)⟩

/-! ## Claim C9 -/

/-- Claim C9, as stated, is false: the `id` pattern uses `([^"]+)` and so
does not accept an empty value — on an input containing `"id":""` the
fallback record omits the `id` key entirely instead of storing `""`. -/
theorem C9_counterexample :
    containsL "\"id\":\"\"".toList s9 = true ∧
    extract_item_data_manually s9 = recS9 ∧
    recS9.hasKey idKey = false ∧
    recS9.hasKey nameKey = true := by
  exact ⟨by decide, by decide, by decide, by decide⟩

/-- Claim C9 amended: each of the six fields is searched independently and
its output key is present if and only if its pattern matches, with the
`null` exception for `ratingDisplayString`; but only `description`,
`displayPrice` and `ratingDisplayString` accept an empty value — `id`,
`name` and `imageUrl` require a non-empty one.  Fallback extraction is a
total function (it cannot error). -/
theorem C9_amended_thm (s : List Char) :
    ((extract_item_data_manually s).lookupM idKey = (searchKV idKey false s).map Json.str) ∧
    ((extract_item_data_manually s).lookupM nameKey = (searchKV nameKey false s).map Json.str) ∧
    ((extract_item_data_manually s).lookupM descKey = (searchKV descKey true s).map Json.str) ∧
    ((extract_item_data_manually s).lookupM priceKey = (searchKV dpTok true s).map Json.str) ∧
    ((extract_item_data_manually s).lookupM imageKey = (searchKV iuTok false s).map Json.str) ∧
    ((extract_item_data_manually s).lookupM ratingKey =
      (searchKV rdsTok true s).bind
        (fun v => if v == nullWord then none else some (Json.str v))) :=
  ⟨manual_lookup_id s, manual_lookup_name s, manual_lookup_desc s,
   manual_lookup_price s, manual_lookup_image s, manual_lookup_rating s⟩

/-! ## Claim C10 -/

/-- Claim C10: when the unescaped candidate parses as strict JSON into a
mapping with a `name` key, the record placed in the output is that mapping
verbatim — no key renaming, no filtering of unrecognized keys. -/
theorem C10_thm (c : List Char) (m : JsonMembers)
    (hl : loads (replaceEsc c) = some (Json.obj m))
    (hn : m.hasKey nameKey = true) :
    processCandidate c = some m := by
  simp only [processCandidate]
  rw [hl]
  simp [hn, isEmptyM_false_of_hasKey m nameKey hn]

/-- Witness for C10 at the concrete candidate `cc10` (its `displayPrice`
and its unrecognized `extraKey` both survive verbatim). -/
theorem C10_witness : processCandidate cc10 = some rec10 :=
  C10_thm cc10 rec10 (by decide) (by decide)
